import Mathlib

/-!
Verification of the mogbox-core audio playback pipeline
(crates/runtime/src/lib.rs, crates/io/src/lib.rs).

The embedding models samples as rationals (ℚ): every scaling the code
performs (`/ 32768.0`, `(x - 128.0) / 128.0`, `/ 2147483648.0`,
`/ 8388607.0`) is a rational operation, and the concrete values the spec
quotes (0.5, 0.9921875, -1.0) are exactly representable, so `f32`
rounding is immaterial to the stated properties.
-/

/-- A decoded planar native-format buffer, as symphonia exposes it in an
`AudioBuffer`: `chan ch frame` is `audio_buf.chan(ch)[frame]`. -/
structure NativeBuf (α : Type) where
  numFrames : ℕ
  numChannels : ℕ
  chan : ℕ → ℕ → α

/-- The `AudioBufferRef` variants handled in `decode_all_samples`
(lib.rs lines 117-206): the five supported encodings plus the
catch-all `_` arm for unsupported formats. -/
inductive AudioBufferRef where
  | f32 (buf : NativeBuf ℚ)
  | s16 (buf : NativeBuf ℤ)
  | u8 (buf : NativeBuf ℕ)
  | s32 (buf : NativeBuf ℤ)
  | s24 (buf : NativeBuf ℤ)
  | unsupported

/-- F32 arm: samples pass through unchanged (lib.rs line 126). -/
def normF32 (x : ℚ) : ℚ := x

/-- S16 arm: `chan(ch)[frame] as f32 / 32768.0` (lib.rs line 141). -/
def normS16 (v : ℤ) : ℚ := (v : ℚ) / 32768

/-- U8 arm: `(chan(ch)[frame] as f32 - 128.0) / 128.0` (lib.rs line 155). -/
def normU8 (v : ℕ) : ℚ := ((v : ℚ) - 128) / 128

/-- S32 arm: `chan(ch)[frame] as f32 / 2147483648.0` (lib.rs line 169). -/
def normS32 (v : ℤ) : ℚ := (v : ℚ) / 2147483648

/-- S24 arm: the code round-trips the `i24` value through its `Debug`
string `"i24(n)"` and parses back the inner `i32`, which recovers the
stored value exactly; then `value as f32 / 8388607.0`
(lib.rs lines 186-195). -/
def normS24 (v : ℤ) : ℚ := (v : ℚ) / 8388607

/-- The interleaving loops common to all five arms: outer loop over
frames, inner loop over channels, pushing `f (chan ch frame)`
(lib.rs lines 124-129 and the identical loops of the other arms). -/
def interleave {α : Type} (buf : NativeBuf α) (f : α → ℚ) : List ℚ :=
  (List.range buf.numFrames).flatMap (fun frame =>
    (List.range buf.numChannels).map (fun ch => f (buf.chan ch frame)))

/-- The `match audio_buf_ref { ... }` dispatch of `decode_all_samples`
(lib.rs lines 117-206): each supported arm interleaves with its scaling,
the `_` arm emits no samples. -/
def decodeBufferRef : AudioBufferRef → List ℚ
  | .f32 b => interleave b normF32
  | .s16 b => interleave b normS16
  | .u8 b => interleave b normU8
  | .s32 b => interleave b normS32
  | .s24 b => interleave b normS24
  | .unsupported => []

/-- Frame count of a decoded buffer (`audio_buf.frames()`). -/
def bufFrames : AudioBufferRef → ℕ
  | .f32 b => b.numFrames
  | .s16 b => b.numFrames
  | .u8 b => b.numFrames
  | .s32 b => b.numFrames
  | .s24 b => b.numFrames
  | .unsupported => 0

/-- Channel count of a decoded buffer (`audio_buf.spec().channels.count()`). -/
def bufChannels : AudioBufferRef → ℕ
  | .f32 b => b.numChannels
  | .s16 b => b.numChannels
  | .u8 b => b.numChannels
  | .s32 b => b.numChannels
  | .s24 b => b.numChannels
  | .unsupported => 0

/-- Nested loops of `interleave`, abstracted over the per-sample value. -/
def interleaveAux (F C : ℕ) (g : ℕ → ℕ → ℚ) : List ℚ :=
  (List.range F).flatMap (fun frame => (List.range C).map (fun ch => g frame ch))

/-- The shared playback state (lib.rs lines 79-83): the grown sample sequence of the
PlaybackBuffer, the read cursor, and the diagnostics flag. -/
structure AudioPlaybackState where
  samples : List ℚ
  position : ℕ
  finished : Bool

/-- The initial state built in `AudioPlayer::play` (lib.rs lines 34-38). -/
def initState : AudioPlaybackState := ⟨[], 0, false⟩

/-- The output-callback critical section (lib.rs lines 50-58): for each
of the `k` destination slots, write `samples[position]` and advance the
cursor while data remains, otherwise write `0.0` and set `finished`.
Returns the post-callback state and the slots written, in order. -/
def fillOutput : AudioPlaybackState → ℕ → AudioPlaybackState × List ℚ
  | s, 0 => (s, [])
  | s, k + 1 =>
    if s.position < s.samples.length then
      let out := s.samples.getD s.position 0
      let p := fillOutput { s with position := s.position + 1 } k
      (p.1, out :: p.2)
    else
      let p := fillOutput { s with finished := true } k
      (p.1, 0 :: p.2)

/-- Panic-aware rendering of the same critical section: the one partial
operation inside it, the index `state.samples[state.position]`
(lib.rs line 52), is modelled by `List.getElem?`, and a hypothetical
out-of-bounds access (a Rust panic, which would poison the mutex) is the
`none` outcome. -/
def fillOutputChecked : AudioPlaybackState → ℕ → Option (AudioPlaybackState × List ℚ)
  | s, 0 => some (s, [])
  | s, k + 1 =>
    if s.position < s.samples.length then
      match s.samples[s.position]? with
      | none => none
      | some out =>
        match fillOutputChecked { s with position := s.position + 1 } k with
        | none => none
        | some p => some (p.1, out :: p.2)
    else
      match fillOutputChecked { s with finished := true } k with
      | none => none
      | some p => some (p.1, 0 :: p.2)

/-- The producer-side critical section (lib.rs line 211):
`state.samples.extend(samples)`. -/
def appendSamples (s : AudioPlaybackState) (xs : List ℚ) : AudioPlaybackState :=
  { s with samples := s.samples ++ xs }

/-- One operation on the shared buffer: a producer append or a consumer
callback invocation for `k` output slots. -/
inductive BufOp where
  | append (xs : List ℚ)
  | read (k : ℕ)

/-- Effect of one buffer operation on the shared state. -/
def applyOp (s : AudioPlaybackState) : BufOp → AudioPlaybackState
  | .append xs => appendSamples s xs
  | .read k => (fillOutput s k).1

/-- Run an interleaved sequence of append/read operations. -/
def runOps (s : AudioPlaybackState) : List BufOp → AudioPlaybackState
  | [] => s
  | op :: rest => runOps (applyOp s op) rest

/-- Run a sequence of callback invocations (slot counts `ks`), collecting
the output buffer of each invocation. -/
def runReads (s : AudioPlaybackState) : List ℕ → AudioPlaybackState × List (List ℚ)
  | [] => (s, [])
  | k :: ks =>
    let p := fillOutput s k
    let q := runReads p.1 ks
    (q.1, p.2 :: q.2)

/-- A symphonia error, as `decode_all_samples` distinguishes them:
`Error::IoError(_)` (the end-of-stream / I/O-exhaustion condition)
versus every other error. -/
inductive SymErr where
  | ioError
  | otherErr (msg : String)

/-- Result of `audio_file.decoder.decode(&packet)` for one packet. -/
inductive DecodeOutcome where
  | ok (buf : AudioBufferRef)
  | err (e : SymErr)

/-- A fetched packet: its track id (`packet.track_id()`) together with
what decoding it would yield. -/
structure Packet where
  trackId : ℕ
  decodeResult : DecodeOutcome

/-- Result of one `audio_file.format.next_packet()` call. -/
inductive FetchResult where
  | ok (p : Packet)
  | err (e : SymErr)

/-- The producer loop of `decode_all_samples` (lib.rs lines 92-224),
run against a finite trace of fetch results. Mirrors the source
control flow: fetch `IoError` breaks (normal termination), any other
fetch error aborts; packets of a foreign track are skipped before
decoding; decode `IoError` breaks, any other decode error aborts;
otherwise the normalized samples are appended when non-empty.
The state is the sample sequence of the shared buffer. -/
def decodeAllSamples (trackId : ℕ) : List FetchResult → List ℚ → Except String (List ℚ)
  | [], buf => Except.ok buf
  | FetchResult.err SymErr.ioError :: _, buf => Except.ok buf
  | FetchResult.err (SymErr.otherErr m) :: _, _ =>
    Except.error ("failed to get packet: " ++ m)
  | FetchResult.ok p :: rest, buf =>
    if p.trackId ≠ trackId then
      decodeAllSamples trackId rest buf
    else
      match p.decodeResult with
      | DecodeOutcome.ok bufRef =>
        let samples := decodeBufferRef bufRef
        decodeAllSamples trackId rest (if samples.isEmpty then buf else buf ++ samples)
      | DecodeOutcome.err SymErr.ioError => Except.ok buf
      | DecodeOutcome.err (SymErr.otherErr m) =>
        Except.error ("failed to decode packet: " ++ m)

/-- Spec-side characterization of how a trace terminates the producer:
`some true` when the first terminating event (reached after skipping
foreign-track packets and successfully decoded packets) is an I/O
error from fetch or decode, `some false` when it is any other fetch or
decode error, `none` when the finite trace runs out first. -/
def firstTerminal (trackId : ℕ) : List FetchResult → Option Bool
  | [] => none
  | FetchResult.err SymErr.ioError :: _ => some true
  | FetchResult.err (SymErr.otherErr _) :: _ => some false
  | FetchResult.ok p :: rest =>
    if p.trackId ≠ trackId then firstTerminal trackId rest
    else
      match p.decodeResult with
      | DecodeOutcome.ok _ => firstTerminal trackId rest
      | DecodeOutcome.err SymErr.ioError => some true
      | DecodeOutcome.err (SymErr.otherErr _) => some false

/-- Whether the packet source itself (`next_packet`) ever reports
end-of-stream, i.e. the trace contains a fetch `IoError`. Formalizes
the phrase "the packet source reports end-of-stream" in the claim. -/
def fetchReportsEOS : List FetchResult → Bool
  | [] => false
  | FetchResult.err SymErr.ioError :: _ => true
  | _ :: rest => fetchReportsEOS rest

theorem interleave_eq_aux {α : Type} (b : NativeBuf α) (f : α → ℚ) :
    interleave b f = interleaveAux b.numFrames b.numChannels (fun fr ch => f (b.chan ch fr)) := rfl

theorem interleaveAux_succ (F C : ℕ) (g : ℕ → ℕ → ℚ) :
    interleaveAux (F + 1) C g = interleaveAux F C g ++ (List.range C).map (g F) := by
  simp [interleaveAux, List.range_succ]

theorem interleaveAux_length (F C : ℕ) (g : ℕ → ℕ → ℚ) :
    (interleaveAux F C g).length = F * C := by
  induction F with
  | zero => simp [interleaveAux]
  | succ n ih => simp [interleaveAux_succ, ih, Nat.succ_mul]

theorem interleaveAux_get (F C : ℕ) (g : ℕ → ℕ → ℚ) (fr ch : ℕ)
    (hfr : fr < F) (hch : ch < C) :
    (interleaveAux F C g)[fr * C + ch]? = some (g fr ch) := by
  induction F with
  | zero => omega
  | succ n ih =>
    rw [interleaveAux_succ]
    rcases Nat.lt_succ_iff_lt_or_eq.mp hfr with h | h
    · rw [List.getElem?_append_left]
      · exact ih h
      · calc fr * C + ch < fr * C + C := by omega
          _ = (fr + 1) * C := by ring
          _ ≤ n * C := Nat.mul_le_mul_right C h
          _ = (interleaveAux n C g).length := (interleaveAux_length n C g).symm
    · subst h
      rw [List.getElem?_append_right (by rw [interleaveAux_length]; omega)]
      rw [interleaveAux_length]
      have hsub : fr * C + ch - fr * C = ch := by omega
      rw [hsub, List.getElem?_map, List.getElem?_range hch]
      rfl

theorem fill_samples (k : ℕ) (s : AudioPlaybackState) :
    (fillOutput s k).1.samples = s.samples := by
  induction k generalizing s with
  | zero => rfl
  | succ n ih =>
    simp only [fillOutput]
    split
    · exact ih { s with position := s.position + 1 }
    · exact ih { s with finished := true }

theorem fill_position_le (k : ℕ) (s : AudioPlaybackState) :
    s.position ≤ (fillOutput s k).1.position := by
  induction k generalizing s with
  | zero => exact Nat.le_refl _
  | succ n ih =>
    simp only [fillOutput]
    split
    · exact Nat.le_trans (Nat.le_succ _) (ih { s with position := s.position + 1 })
    · exact ih { s with finished := true }

theorem fill_position_le_len (k : ℕ) (s : AudioPlaybackState)
    (h : s.position ≤ s.samples.length) :
    (fillOutput s k).1.position ≤ (fillOutput s k).1.samples.length := by
  rw [fill_samples]
  induction k generalizing s with
  | zero => exact h
  | succ n ih =>
    simp only [fillOutput]
    split
    · rename_i hlt
      exact ih { s with position := s.position + 1 } hlt
    · exact ih { s with finished := true } h

theorem fill_position_at_end (k : ℕ) (s : AudioPlaybackState)
    (h : s.samples.length ≤ s.position) :
    (fillOutput s k).1.position = s.position := by
  induction k generalizing s with
  | zero => rfl
  | succ n ih =>
    simp only [fillOutput]
    split
    · rename_i hlt
      omega
    · exact ih { s with finished := true } h

theorem fill_out_length (k : ℕ) (s : AudioPlaybackState) :
    (fillOutput s k).2.length = k := by
  induction k generalizing s with
  | zero => rfl
  | succ n ih =>
    simp only [fillOutput]
    split
    · simpa using ih { s with position := s.position + 1 }
    · simpa using ih { s with finished := true }

theorem fill_out_get (k : ℕ) (s : AudioPlaybackState) (i : ℕ) (hik : i < k) :
    (fillOutput s k).2[i]? =
      some (if s.position + i < s.samples.length then s.samples.getD (s.position + i) 0 else 0) := by
  induction k generalizing s i with
  | zero => omega
  | succ n ih =>
    simp only [fillOutput]
    split
    · rename_i hlt
      cases i with
      | zero => simp [hlt]
      | succ j =>
        have hrec := ih { s with position := s.position + 1 } j (by omega)
        simp only [List.getElem?_cons_succ]
        simp only at hrec
        rw [hrec]
        have harith : s.position + 1 + j = s.position + (j + 1) := by omega
        rw [harith]
    · rename_i hge
      cases i with
      | zero => simp [hge]
      | succ j =>
        have hrec := ih { s with finished := true } j (by omega)
        simp only [List.getElem?_cons_succ]
        simp only at hrec
        rw [hrec]
        have h1 : ¬ s.position + j < s.samples.length := by omega
        have h2 : ¬ s.position + (j + 1) < s.samples.length := by omega
        simp [h1, h2]

theorem fill_out_zero_at_end (k : ℕ) (s : AudioPlaybackState)
    (h : s.samples.length ≤ s.position) :
    ∀ x ∈ (fillOutput s k).2, x = 0 := by
  induction k generalizing s with
  | zero => intro x hx; simp [fillOutput] at hx
  | succ n ih =>
    simp only [fillOutput]
    split
    · rename_i hlt; omega
    · intro x hx
      simp only [List.mem_cons] at hx
      rcases hx with rfl | hx
      · rfl
      · exact ih { s with finished := true } h x hx

theorem fill_finished_mono (k : ℕ) (s : AudioPlaybackState)
    (h : s.finished = true) :
    (fillOutput s k).1.finished = true := by
  induction k generalizing s with
  | zero => exact h
  | succ n ih =>
    simp only [fillOutput]
    split
    · exact ih { s with position := s.position + 1 } h
    · exact ih { s with finished := true } rfl

theorem applyOp_position_le (s : AudioPlaybackState) (op : BufOp) :
    s.position ≤ (applyOp s op).position := by
  cases op with
  | append xs => exact Nat.le_refl _
  | read k => exact fill_position_le k s

theorem applyOp_samples_eq_append (s : AudioPlaybackState) (op : BufOp) :
    ∃ t : List ℚ, (applyOp s op).samples = s.samples ++ t := by
  cases op with
  | append xs => exact ⟨xs, rfl⟩
  | read k => exact ⟨[], by rw [applyOp, fill_samples, List.append_nil]⟩

theorem applyOp_inv (s : AudioPlaybackState) (op : BufOp)
    (h : s.position ≤ s.samples.length) :
    (applyOp s op).position ≤ (applyOp s op).samples.length := by
  cases op with
  | append xs =>
    simp only [applyOp, appendSamples, List.length_append]
    omega
  | read k => exact fill_position_le_len k s h

theorem runOps_append (s : AudioPlaybackState) (ops more : List BufOp) :
    runOps s (ops ++ more) = runOps (runOps s ops) more := by
  induction ops generalizing s with
  | nil => rfl
  | cons op rest ih =>
    simp only [List.cons_append, runOps]
    exact ih (applyOp s op)

theorem runOps_position_le (s : AudioPlaybackState) (ops : List BufOp) :
    s.position ≤ (runOps s ops).position := by
  induction ops generalizing s with
  | nil => exact Nat.le_refl _
  | cons op rest ih =>
    exact Nat.le_trans (applyOp_position_le s op) (ih (applyOp s op))

theorem runOps_samples_eq_append (s : AudioPlaybackState) (ops : List BufOp) :
    ∃ t : List ℚ, (runOps s ops).samples = s.samples ++ t := by
  induction ops generalizing s with
  | nil => exact ⟨[], (List.append_nil _).symm⟩
  | cons op rest ih =>
    obtain ⟨t1, h1⟩ := applyOp_samples_eq_append s op
    obtain ⟨t2, h2⟩ := ih (applyOp s op)
    exact ⟨t1 ++ t2, by rw [runOps, h2, h1, List.append_assoc]⟩

theorem runOps_inv (s : AudioPlaybackState) (ops : List BufOp)
    (h : s.position ≤ s.samples.length) :
    (runOps s ops).position ≤ (runOps s ops).samples.length := by
  induction ops generalizing s with
  | nil => exact h
  | cons op rest ih => exact ih (applyOp s op) (applyOp_inv s op h)

theorem runOps_finished_mono (s : AudioPlaybackState) (ops : List BufOp)
    (h : s.finished = true) :
    (runOps s ops).finished = true := by
  induction ops generalizing s with
  | nil => exact h
  | cons op rest ih =>
    refine ih (applyOp s op) ?_
    cases op with
    | append xs => exact h
    | read k => exact fill_finished_mono k s h

/-- Claim C1: normalization applies exactly the documented per-format scaling
to each sample of a decoded packet — float32 passes through, signed 16
divides by 32768, unsigned 8 subtracts 128 then divides by 128, signed
32 divides by 2147483648, signed 24 divides by 8388607 — and in
particular signed-16 value 16384 maps to 0.5, unsigned-8 value 255 maps
to 0.9921875, and the signed-32 minimum maps to -1 exactly. -/
theorem c1_per_format_scaling :
    (∀ x : ℚ, decodeBufferRef (AudioBufferRef.f32 ⟨1, 1, fun _ _ => x⟩) = [x]) ∧
    (∀ v : ℤ, decodeBufferRef (AudioBufferRef.s16 ⟨1, 1, fun _ _ => v⟩) = [(v : ℚ) / 32768]) ∧
    (∀ v : ℕ, decodeBufferRef (AudioBufferRef.u8 ⟨1, 1, fun _ _ => v⟩) = [((v : ℚ) - 128) / 128]) ∧
    (∀ v : ℤ, decodeBufferRef (AudioBufferRef.s32 ⟨1, 1, fun _ _ => v⟩) = [(v : ℚ) / 2147483648]) ∧
    (∀ v : ℤ, decodeBufferRef (AudioBufferRef.s24 ⟨1, 1, fun _ _ => v⟩) = [(v : ℚ) / 8388607]) ∧
    decodeBufferRef (AudioBufferRef.s16 ⟨1, 1, fun _ _ => 16384⟩) = [(0.5 : ℚ)] ∧
    decodeBufferRef (AudioBufferRef.u8 ⟨1, 1, fun _ _ => 255⟩) = [(0.9921875 : ℚ)] ∧
    decodeBufferRef (AudioBufferRef.s32 ⟨1, 1, fun _ _ => -2147483648⟩) = [(-1 : ℚ)] := by
  refine ⟨fun x => ?_, fun v => ?_, fun v => ?_, fun v => ?_, fun v => ?_, ?_, ?_, ?_⟩ <;>
    norm_num [decodeBufferRef, interleave, normF32, normS16, normU8, normS32, normS24,
      List.range_succ]

/-- Claim C2: for every supported decoded packet the normalized output has
length `frames × channels`; each supported arm is the frame-outer,
channel-inner interleaving of its scaled samples, so sample
`(frame, ch)` lands at index `frame * channels + ch`; in particular for
a 2-channel buffer, slots `2i` and `2i + 1` hold channel 0
and channel 1 of frame `i`. -/
theorem c2_interleaving_layout :
    (∀ r : AudioBufferRef, r ≠ AudioBufferRef.unsupported →
        (decodeBufferRef r).length = bufFrames r * bufChannels r) ∧
    (∀ b : NativeBuf ℚ, decodeBufferRef (AudioBufferRef.f32 b) = interleave b normF32) ∧
    (∀ b : NativeBuf ℤ, decodeBufferRef (AudioBufferRef.s16 b) = interleave b normS16) ∧
    (∀ b : NativeBuf ℕ, decodeBufferRef (AudioBufferRef.u8 b) = interleave b normU8) ∧
    (∀ b : NativeBuf ℤ, decodeBufferRef (AudioBufferRef.s32 b) = interleave b normS32) ∧
    (∀ b : NativeBuf ℤ, decodeBufferRef (AudioBufferRef.s24 b) = interleave b normS24) ∧
    (∀ (α : Type) (b : NativeBuf α) (f : α → ℚ) (fr ch : ℕ),
        fr < b.numFrames → ch < b.numChannels →
        (interleave b f)[fr * b.numChannels + ch]? = some (f (b.chan ch fr))) ∧
    (∀ b : NativeBuf ℤ, b.numChannels = 2 → ∀ i, i < b.numFrames →
        (decodeBufferRef (AudioBufferRef.s16 b))[2 * i]? = some (normS16 (b.chan 0 i)) ∧
        (decodeBufferRef (AudioBufferRef.s16 b))[2 * i + 1]? = some (normS16 (b.chan 1 i))) := by
  have hget : ∀ (α : Type) (b : NativeBuf α) (f : α → ℚ) (fr ch : ℕ),
      fr < b.numFrames → ch < b.numChannels →
      (interleave b f)[fr * b.numChannels + ch]? = some (f (b.chan ch fr)) := by
    intro α b f fr ch hfr hch
    rw [interleave_eq_aux]
    exact interleaveAux_get b.numFrames b.numChannels _ fr ch hfr hch
  refine ⟨?_, fun b => rfl, fun b => rfl, fun b => rfl, fun b => rfl, fun b => rfl, hget, ?_⟩
  · intro r hr
    cases r <;>
      simp [decodeBufferRef, bufFrames, bufChannels, interleave_eq_aux, interleaveAux_length] at hr ⊢
  · intro b hc i hi
    constructor
    · have := hget ℤ b normS16 i 0 hi (by omega)
      rw [hc] at this
      simpa [decodeBufferRef, Nat.mul_comm] using this
    · have := hget ℤ b normS16 i 1 hi (by omega)
      rw [hc] at this
      simpa [decodeBufferRef, Nat.mul_comm] using this

/-- Witness for C2 at a concrete 1-frame, 2-channel signed-16 buffer
whose channel `ch` holds the value `ch`. -/
theorem c2_witness :
    (decodeBufferRef (AudioBufferRef.s16 ⟨1, 2, fun ch _ => (ch : ℤ)⟩)).length = 1 * 2 ∧
    (decodeBufferRef (AudioBufferRef.s16 ⟨1, 2, fun ch _ => (ch : ℤ)⟩))[2 * 0]? =
      some (normS16 0) ∧
    (decodeBufferRef (AudioBufferRef.s16 ⟨1, 2, fun ch _ => (ch : ℤ)⟩))[2 * 0 + 1]? =
      some (normS16 1) :=
  ⟨by
    have := c2_interleaving_layout.1 (AudioBufferRef.s16 ⟨1, 2, fun ch _ => (ch : ℤ)⟩)
      (fun h => AudioBufferRef.noConfusion h)
    simpa [bufFrames, bufChannels] using this,
   (c2_interleaving_layout.2.2.2.2.2.2.2 ⟨1, 2, fun ch _ => (ch : ℤ)⟩ rfl 0 (by decide)).1,
   (c2_interleaving_layout.2.2.2.2.2.2.2 ⟨1, 2, fun ch _ => (ch : ℤ)⟩ rfl 0 (by decide)).2⟩

/-- Claim C3: over any interleaved sequence of producer appends and consumer
reads starting from the empty initial state of the session, the read cursor
never exceeds the stored length, is non-decreasing as further
operations run, and the stored sample sequence only ever grows by
appending at the end (never removed or reordered). -/
theorem c3_cursor_monotone_bounded :
    (∀ ops : List BufOp,
        (runOps initState ops).position ≤ (runOps initState ops).samples.length) ∧
    (∀ ops more : List BufOp,
        (runOps initState ops).position ≤ (runOps initState (ops ++ more)).position) ∧
    (∀ ops more : List BufOp, ∃ t : List ℚ,
        (runOps initState (ops ++ more)).samples = (runOps initState ops).samples ++ t) := by
  refine ⟨?_, ?_, ?_⟩
  · intro ops
    exact runOps_inv initState ops (Nat.le_refl 0)
  · intro ops more
    rw [runOps_append]
    exact runOps_position_le (runOps initState ops) more
  · intro ops more
    rw [runOps_append]
    exact runOps_samples_eq_append (runOps initState ops) more

/-- Claim C4: once the read cursor has reached the end of the appended data,
any further sequence of callback invocations (any slot counts) writes
only silence and leaves the cursor at the appended length. -/
theorem c4_silence_past_end (s : AudioPlaybackState)
    (h : s.position = s.samples.length) (ks : List ℕ) :
    (runReads s ks).1.position = s.samples.length ∧
    (∀ o ∈ (runReads s ks).2, ∀ x ∈ o, x = 0) := by
  induction ks generalizing s with
  | nil => exact ⟨h, by intro o ho; simp [runReads] at ho⟩
  | cons k rest ih =>
    have hpos : (fillOutput s k).1.position = s.position :=
      fill_position_at_end k s (Nat.le_of_eq h.symm)
    have hsam : (fillOutput s k).1.samples = s.samples := fill_samples k s
    have hnext : (fillOutput s k).1.position = (fillOutput s k).1.samples.length := by
      rw [hpos, hsam, h]
    obtain ⟨ih1, ih2⟩ := ih (fillOutput s k).1 hnext
    refine ⟨?_, ?_⟩
    · simpa [runReads, hsam] using ih1
    · intro o ho x hx
      simp only [runReads, List.mem_cons] at ho
      rcases ho with rfl | ho
      · exact fill_out_zero_at_end k s (Nat.le_of_eq h.symm) x hx
      · exact ih2 o ho x hx

/-- Witness for C4: a state with two appended samples and cursor at the
end; three callback invocations of sizes 1, 2, 0 produce only zeros and
leave the cursor at 2. -/
theorem c4_witness :
    (2 : ℕ) = ([(3 : ℚ), 4]).length ∧
    (runReads ⟨[(3 : ℚ), 4], 2, false⟩ [1, 2, 0]).1.position = ([(3 : ℚ), 4]).length ∧
    (∀ o ∈ (runReads ⟨[(3 : ℚ), 4], 2, false⟩ [1, 2, 0]).2, ∀ x ∈ o, x = 0) :=
  ⟨rfl,
   (c4_silence_past_end ⟨[(3 : ℚ), 4], 2, false⟩ rfl [1, 2, 0]).1,
   (c4_silence_past_end ⟨[(3 : ℚ), 4], 2, false⟩ rfl [1, 2, 0]).2⟩

/-- Counterexample for C5: a trace whose single packet belongs to the
selected track but fails to decode with an I/O error. The producer
terminates normally (`Except.ok`, via the `break` at lib.rs lines
214-216), yet the packet source never reports end-of-stream: no
`next_packet` call returned `IoError`. So normal termination does not
happen *exactly when the packet source reports end-of-stream*. -/
theorem c5_counterexample :
    (decodeAllSamples 0 [FetchResult.ok ⟨0, DecodeOutcome.err SymErr.ioError⟩] []).isOk = true ∧
    fetchReportsEOS [FetchResult.ok ⟨0, DecodeOutcome.err SymErr.ioError⟩] = false :=
  ⟨rfl, rfl⟩

/-- Claim C5 as amended: the producer terminates normally exactly when the
first terminating event of the run is an I/O-exhaustion condition —
reported either by the packet source (`next_packet`) or by the decoder
(`decode`) — and aborts with an error exactly when fetching or decoding
a packet fails for any reason other than an I/O error; no such
packet-level error is skipped. (`firstTerminal` is `none` only when the
finite trace is exhausted without any terminating event, in which case
the modelled loop has simply consumed its whole input.) -/
theorem c5_amended_termination (trackId : ℕ) (trace : List FetchResult) (buf : List ℚ) :
    (decodeAllSamples trackId trace buf).isOk = true ↔
      firstTerminal trackId trace ≠ some false := by
  induction trace generalizing buf with
  | nil => simp [decodeAllSamples, firstTerminal, Except.isOk, Except.toBool]
  | cons hd rest ih =>
    cases hd with
    | err e =>
      cases e <;> simp [decodeAllSamples, firstTerminal, Except.isOk, Except.toBool]
    | ok p =>
      by_cases ht : p.trackId ≠ trackId
      · simp only [decodeAllSamples, firstTerminal, if_pos ht]
        exact ih buf
      · cases hdr : p.decodeResult with
        | ok bufRef =>
          simp only [decodeAllSamples, firstTerminal, if_neg ht, hdr]
          exact ih _
        | err e =>
          cases e <;>
            simp [decodeAllSamples, firstTerminal, if_neg ht, hdr, Except.isOk, Except.toBool]

/-- Claim C6: a packet whose track id differs from the selected track is
discarded before decoding (lib.rs lines 106-108): the iteration leaves
the buffer untouched and the run continues exactly as if the packet
were absent — in particular its decode outcome (even an aborting error)
is never consulted. -/
theorem c6_foreign_track_discarded (trackId : ℕ) (p : Packet) (rest : List FetchResult)
    (buf : List ℚ) (h : p.trackId ≠ trackId) :
    decodeAllSamples trackId (FetchResult.ok p :: rest) buf =
      decodeAllSamples trackId rest buf := by
  simp [decodeAllSamples, h]

/-- Witness for C6: a foreign-track packet that would abort the session
if it were decoded is skipped and the run ends normally with the buffer
unchanged. -/
theorem c6_witness :
    (1 : ℕ) ≠ 0 ∧
    decodeAllSamples 0
        [FetchResult.ok ⟨1, DecodeOutcome.err (SymErr.otherErr "corrupt")⟩] [(3 : ℚ)] =
      Except.ok [(3 : ℚ)] :=
  ⟨by decide, by
    rw [c6_foreign_track_discarded 0 ⟨1, DecodeOutcome.err (SymErr.otherErr "corrupt")⟩
      [] [(3 : ℚ)] (by decide)]
    rfl⟩

/-- Claim C7: a successfully decoded packet whose native format is not one of
the five supported encodings contributes zero samples — the `_` arm
emits none (lib.rs lines 202-205), so the `!samples.is_empty()` guard
skips the append (lib.rs lines 209-212) — and the producer continues
with the remaining packets instead of aborting. (The accompanying
`eprintln!` warning is diagnostic output, outside the model.) -/
theorem c7_unsupported_format_nonfatal (trackId : ℕ) (p : Packet) (rest : List FetchResult)
    (buf : List ℚ) (h : p.decodeResult = DecodeOutcome.ok AudioBufferRef.unsupported) :
    decodeAllSamples trackId (FetchResult.ok p :: rest) buf =
      decodeAllSamples trackId rest buf := by
  by_cases ht : p.trackId ≠ trackId
  · simp [decodeAllSamples, ht]
  · simp [decodeAllSamples, ht, h, decodeBufferRef]

/-- Witness for C7: an unsupported-format packet on the selected track
leaves the buffer unchanged and the run then processes the next packet
(here reaching end-of-stream normally). -/
theorem c7_witness :
    decodeAllSamples 0
        [FetchResult.ok ⟨0, DecodeOutcome.ok AudioBufferRef.unsupported⟩,
         FetchResult.err SymErr.ioError] [(3 : ℚ)] =
      Except.ok [(3 : ℚ)] := by
  rw [c7_unsupported_format_nonfatal 0 ⟨0, DecodeOutcome.ok AudioBufferRef.unsupported⟩
    [FetchResult.err SymErr.ioError] [(3 : ℚ)] rfl]
  rfl

/-- Claim C8: no operation performed while holding the shared-buffer lock can
panic. The only partial operation inside either critical section is the
index `state.samples[state.position]` in the output callback (the
the `extend` of the producer is total); evaluating the callback with that index
checked (`none` = out-of-bounds panic) always succeeds and agrees with
the unchecked semantics. Hence neither critical section can panic, the
mutex is never poisoned, and the `lock().unwrap()` calls at both
acquisition sites (lib.rs lines 47 and 210) cannot panic the process. -/
theorem c8_lock_sites_no_panic (s : AudioPlaybackState) (k : ℕ) :
    fillOutputChecked s k = some (fillOutput s k) := by
  induction k generalizing s with
  | zero => rfl
  | succ n ih =>
    simp only [fillOutputChecked, fillOutput]
    split
    · rename_i h
      rw [List.getElem?_eq_getElem h, ih { s with position := s.position + 1 }]
      simp [List.getD_eq_getElem?_getD, List.getElem?_eq_getElem h]
    · rw [ih { s with finished := true }]

/-- Claim C10: each callback invocation with `k` destination slots writes all
`k` slots exactly once — slot `i` receives the buffered sample at
`position + i` when it exists and `0` otherwise — and the `finished`
flag, once set, is never cleared by any later append or read. -/
theorem c10_slots_and_finished (s : AudioPlaybackState) (k : ℕ) :
    (fillOutput s k).2.length = k ∧
    (∀ i, i < k → (fillOutput s k).2[i]? =
        some (if s.position + i < s.samples.length
              then s.samples.getD (s.position + i) 0 else 0)) ∧
    (∀ ops : List BufOp, s.finished = true → (runOps s ops).finished = true) :=
  ⟨fill_out_length k s,
   fun i hi => fill_out_get k s i hi,
   fun ops h => runOps_finished_mono s ops h⟩

/-- Witness for C10 at a concrete one-sample buffer read with two slots:
slot 0 gets the sample, slot 1 gets silence, and a finished state stays
finished across further operations. -/
theorem c10_witness :
    (fillOutput ⟨[(5 : ℚ)], 0, false⟩ 2).2.length = 2 ∧
    (fillOutput ⟨[(5 : ℚ)], 0, false⟩ 2).2[0]? =
      some (if 0 + 0 < ([(5 : ℚ)]).length then ([(5 : ℚ)]).getD (0 + 0) 0 else 0) ∧
    (fillOutput ⟨[(5 : ℚ)], 0, false⟩ 2).2[1]? =
      some (if 0 + 1 < ([(5 : ℚ)]).length then ([(5 : ℚ)]).getD (0 + 1) 0 else 0) ∧
    (runOps ⟨[], 0, true⟩ [BufOp.append [(7 : ℚ)], BufOp.read 3]).finished = true :=
  ⟨(c10_slots_and_finished ⟨[(5 : ℚ)], 0, false⟩ 2).1,
   (c10_slots_and_finished ⟨[(5 : ℚ)], 0, false⟩ 2).2.1 0 (by decide),
   (c10_slots_and_finished ⟨[(5 : ℚ)], 0, false⟩ 2).2.1 1 (by decide),
   (c10_slots_and_finished ⟨[], 0, true⟩ 0).2.2 [BufOp.append [(7 : ℚ)], BufOp.read 3] rfl⟩

/-- Witness for C1: the signed-16 conversion evaluated at 16384. -/
theorem c1_witness :
    decodeBufferRef (AudioBufferRef.s16 ⟨1, 1, fun _ _ => (16384 : ℤ)⟩) =
      [((16384 : ℤ) : ℚ) / 32768] :=
  c1_per_format_scaling.2.1 16384

/-- Witness for C3 on a concrete operation sequence: one append of one
sample followed by a two-slot read, then one more read. -/
theorem c3_witness :
    (runOps initState [BufOp.append [(1 : ℚ)], BufOp.read 2]).position ≤
      (runOps initState [BufOp.append [(1 : ℚ)], BufOp.read 2]).samples.length ∧
    (runOps initState [BufOp.append [(1 : ℚ)], BufOp.read 2]).position ≤
      (runOps initState ([BufOp.append [(1 : ℚ)], BufOp.read 2] ++ [BufOp.read 1])).position :=
  ⟨c3_cursor_monotone_bounded.1 [BufOp.append [(1 : ℚ)], BufOp.read 2],
   c3_cursor_monotone_bounded.2.1 [BufOp.append [(1 : ℚ)], BufOp.read 2] [BufOp.read 1]⟩

/-- Witness for the amended C5 on a concrete end-of-stream trace. -/
theorem c5_amended_witness :
    (decodeAllSamples 0 [FetchResult.err SymErr.ioError] []).isOk = true ↔
      firstTerminal 0 [FetchResult.err SymErr.ioError] ≠ some false :=
  c5_amended_termination 0 [FetchResult.err SymErr.ioError] []

/-- Witness for C8 at a concrete state: a three-slot callback over a
one-sample buffer evaluates without reaching the panic outcome. -/
theorem c8_witness :
    fillOutputChecked ⟨[(2 : ℚ)], 0, false⟩ 3 = some (fillOutput ⟨[(2 : ℚ)], 0, false⟩ 3) :=
  c8_lock_sites_no_panic ⟨[(2 : ℚ)], 0, false⟩ 3
